import Mathlib

/-!
Verification of the segmentation–merge–selection–extraction pipeline of a
video-clipping tool.  The Lean definitions below are a shallow embedding of
the Python source `src/app.py`: transcript dictionaries become structures
with `Option` fields (a missing JSON key is `none`, and `.get(k, default)`
becomes `Option.getD`), Python floats become `ℚ`, and code that can raise
an exception returns `Option` (with `none` for the exception path).
-/

namespace VideoClipper

/-- A word-level timestamp record, modelling the dicts
`{"word": ..., "start": ..., "end": ...}` inside a segment's `words` list
(`app.py`, whisper verbose-json format).  The JSON key `end` is a Lean
keyword, so the field is called `stop` here. -/
structure Word where
  word : String
  start : ℚ
  stop : ℚ
deriving DecidableEq, Repr

/-- A transcript segment, modelling the dicts
`{"id": ..., "start": ..., "end": ..., "text": ..., "words": [...]}`.
The `words` key may be absent (`app.py` line 122 tests `"words" in new_segment`),
hence `Option`.  The JSON key `end` is modelled by the field `stop`. -/
structure Segment where
  id : ℕ
  start : ℚ
  stop : ℚ
  text : String
  words : Option (List Word)
deriving DecidableEq, Repr

/-- A (chunk or merged) transcript dictionary.  Every field is optional
because the source reads every key through `.get(key, default)` and the
zero-chunk merge result is the empty dict `{}`. -/
structure Transcript where
  task : Option String
  language : Option String
  duration : Option ℚ
  text : Option String
  segments : Option (List Segment)
deriving DecidableEq, Repr

/-- The empty dict `{}` returned by `merge_transcript_segments` when it is
given no transcripts (`app.py` lines 90–91). -/
def emptyTranscript : Transcript :=
  { task := none, language := none, duration := none, text := none, segments := none }

/-- The effective segment list of a transcript: `transcript.get("segments", [])`. -/
def segsOf (t : Transcript) : List Segment :=
  t.segments.getD []

/-- Shift one word stamp by an offset: `word["start"] += current_offset;`
`word["end"] += current_offset` (`app.py` lines 124–125). -/
def shiftWord (off : ℚ) (w : Word) : Word :=
  { w with start := w.start + off, stop := w.stop + off }

/-- The value appended for one input segment by the merge loop
(`app.py` lines 116–127): a copy of the segment with `id` replaced by the
running global counter, `start`/`end` shifted by the running offset, and
every word stamp shifted by the same offset. -/
def shiftSegment (off : ℚ) (newId : ℕ) (s : Segment) : Segment :=
  { s with
    id := newId
    start := s.start + off
    stop := s.stop + off
    words := s.words.map (fun ws => ws.map (shiftWord off)) }

/-- The inner `for segment in transcript.get("segments", [])` loop of
`merge_transcript_segments` (`app.py` lines 115–128): each segment of one
chunk is shifted by the chunk's offset and renumbered with consecutive ids
starting at `sid`. -/
def renumber (off : ℚ) : ℕ → List Segment → List Segment
  | _, [] => []
  | sid, s :: ss => shiftSegment off sid s :: renumber off (sid + 1) ss

/-- The outer `for i, transcript in enumerate(transcript_segments)` loop of
`merge_transcript_segments` (`app.py` lines 110–131), threading the
accumulated text, the running offset, the running segment-id counter and the
accumulated global segment list.  `segment_lengths[i]` is read after chunk
`i`'s segments are processed; if the list is exhausted Python raises
`IndexError`, modelled by `none`. -/
def mergeLoop : List Transcript → List ℚ → ℚ → ℕ → String → List Segment →
    Option (String × List Segment)
  | [], _, _, _, text, acc => some (text, acc)
  | t :: ts, ls, off, sid, text, acc =>
    let segs := renumber off sid (segsOf t)
    match ls with
    | [] => none
    | l :: ls1 =>
      mergeLoop ts ls1 (off + l) (sid + segs.length)
        (text ++ t.text.getD "" ++ " ") (acc ++ segs)

/-- `merge_transcript_segments(transcript_segments, segment_lengths)`
(`app.py` lines 79–134).  Zero transcripts yield the empty dict `{}`;
exactly one transcript is returned unchanged; otherwise the merged dict is
built with `task`/`language` defaulted from the first chunk, `duration`
equal to `sum(segment_lengths)`, and the text/segments produced by the
merge loop.  `none` models an uncaught `IndexError` on `segment_lengths[i]`. -/
def merge_transcript_segments : List Transcript → List ℚ → Option Transcript
  | [], _ => some emptyTranscript
  | [t], _ => some t
  | t0 :: t1 :: ts, ls =>
    (mergeLoop (t0 :: t1 :: ts) ls 0 0 "" []).map fun p =>
      { task := some (t0.task.getD "transcribe")
        language := some (t0.language.getD "english")
        duration := some ls.sum
        text := some p.1
        segments := some p.2 }

/-- The chunk-collection-and-merge tail of `transcribe_video`
(`app.py` lines 218–253): each window's transcription either succeeds
(`some chunk`, appended to `transcript_segments`) or fails (`none`, only
logged, nothing appended), while `segment_durations` always holds one
nominal duration per window.  If no window succeeded the function returns
`None`; otherwise it returns the merge of the surviving chunks against the
full duration list. -/
def transcribe_merge (results : List (Option Transcript)) (durations : List ℚ) :
    Option Transcript :=
  let survivors := results.filterMap id
  if survivors.isEmpty then none
  else merge_transcript_segments survivors durations

/-- The window computation of `split_audio` (`app.py` lines 46–77), as a pure
function of the video duration and the requested segment length.  Each
window is a `(start_time, end_time)` pair.  If `duration <= segment_length`
the whole asset is one window; otherwise `num_segments = int(np.ceil(duration
/ segment_length))` windows are produced with `start = i * segment_length`
and `end = min((i + 1) * segment_length, duration)`.  A `ZeroDivisionError`
(`segment_length == 0` reached on the division) is caught by the enclosing
`except`, which returns `[]`; a non-positive `num_segments` makes
`range(num_segments)` empty, so the loop body never runs and `[]` is
returned.  No validation of either argument is performed anywhere. -/
def split_audio_windows (duration segment_length : ℚ) : List (ℚ × ℚ) :=
  if duration ≤ segment_length then [(0, duration)]
  else if segment_length = 0 then []
  else
    (List.range (Int.ceil (duration / segment_length)).toNat).map
      (fun i => ((i : ℚ) * segment_length, min (((i : ℚ) + 1) * segment_length) duration))

/-- A highlight-candidate record as parsed from the reasoning service's JSON
(`clips` array elements; shape per the prompt template in `app.py` lines
303–325).  `timecodes` models the two-element `[start_time, end_time]`
array.  The nested `analysis` object is modelled opaquely as a string — no
code in the repository ever reads inside it. -/
structure ViralClip where
  timecodes : ℚ × ℚ
  description : String
  entertainment_score : ℕ
  educational_score : ℕ
  clarity_score : ℕ
  shareability_score : ℕ
  length_score : ℕ
  analysis : String
  text_hook : String
deriving DecidableEq, Repr

/-- The post-processing of the reasoning-service response in
`analyze_transcript` (`app.py` lines 375–403).  The argument models the
three stages that can fail: `none` is the "no choices / JSON decode error /
API exception" path, `some none` is "parsed JSON without a `clips` key",
and `some (some clips)` is the success path.  On success the function
returns `viral_clips['clips']` verbatim — there is no filtering of any
kind between the parse and the `return`. -/
def analyze_transcript_result : Option (Option (List ViralClip)) → List ViralClip
  | some (some clips) => clips
  | some none => []
  | none => []

/-- Modelled from the spec: the length-score policy of §4.4.  The policy
exists in the repository only as instruction text inside the prompt of
`analyze_transcript` (`app.py` lines 357–363: "If the segment is between
30-90 seconds: score = 10", and so on); no executable recomputation exists,
so this definition transcribes that prompt table, reading its overlapping
inclusive ranges sequentially (first matching rule wins), which pins every
boundary exactly as the spec's §8 boundary examples require (30.0 → 10,
29.999 → 8, 90.0 → 10, 90.001 → 8). -/
def length_score (d : ℚ) : ℕ :=
  if 30 ≤ d ∧ d ≤ 90 then 10
  else if (20 ≤ d ∧ d ≤ 30) ∨ (90 ≤ d ∧ d ≤ 100) then 8
  else if (10 ≤ d ∧ d ≤ 20) ∨ (100 ≤ d ∧ d ≤ 110) then 6
  else if (0 ≤ d ∧ d ≤ 10) ∨ (110 ≤ d ∧ d ≤ 120) then 4
  else 2

/-- The intermediate size produced by `segment.resize(height=1920)` under the
monkey-patched resize (`app.py` lines 443–451 and 504): with `height` given
and `width` omitted, `width = int(clip.w * height / clip.h)`, i.e. the
floor of `w * 1920 / h` for positive sizes. -/
def scaled_size (w h : ℕ) : ℕ × ℕ :=
  ((w * 1920) / h, 1920)

/-- The horizontal band requested by
`crop(x_center=vertical_segment.w/2, width=1080)` (`app.py` line 506):
moviepy turns `x_center`/`width` into edges `x1 = x_center - width/2` and
`x2 = x_center + width/2`.  No bounds check precedes this call. -/
def crop_band (wScaled : ℕ) : ℚ × ℚ :=
  ((wScaled : ℚ) / 2 - 1080 / 2, (wScaled : ℚ) / 2 + 1080 / 2)

/-- The complete per-candidate reprojection geometry of
`create_vertical_clips` (`app.py` lines 497–510): first the scaled
intermediate size, then the crop band requested on it.  The code performs
no `w' >= 1080` validation and defines no `GeometryError`; this function is
total. -/
def vertical_clip_geometry (w h : ℕ) : (ℕ × ℕ) × (ℚ × ℚ) :=
  (scaled_size w h, crop_band (scaled_size w h).1)

/-- The clip-writing loop of `create_vertical_clips` (`app.py` lines
497–518).  `ok i` abstracts whether processing candidate number `i`
(subclip, resize, crop, `write_videofile`) completes without raising.  The
`for i, clip_info in enumerate(viral_clips, 1)` loop sits inside a single
`try:`, so the first exception aborts the loop — the handler at lines
517–519 only logs — while the files already written stay on disk.  The
result is the list of indices `i` for which `viral_clip_{i}` was written. -/
def clips_written (ok : ℕ → Bool) : List ViralClip → ℕ → List ℕ
  | [], _ => []
  | _ :: cs, i => if ok i then i :: clips_written ok cs (i + 1) else []

/-- `create_vertical_clips` viewed through the indices of the clips it
actually writes: candidates are numbered from 1 (`enumerate(viral_clips, 1)`,
`app.py` line 498). -/
def create_vertical_clips_result (ok : ℕ → Bool) (viral_clips : List ViralClip) : List ℕ :=
  clips_written ok viral_clips 1

/-- One input segment as the caller sees it after `merge_transcript_segments`
returns.  `new_segment = segment.copy()` (`app.py` line 116) is a shallow
dict copy, so `new_segment["words"]` is the very list (of dicts) stored in
the caller's segment; the `word["start"] += current_offset` updates at
lines 123–125 therefore mutate the caller's word dicts in place, while the
segment's own `id`/`start`/`end`/`text` are protected by the copy. -/
def mutateWordsSeg (off : ℚ) (s : Segment) : Segment :=
  { s with words := s.words.map (fun ws => ws.map (shiftWord off)) }

/-- One input transcript as the caller sees it after the merge loop has
processed it with offset `off`: only the word stamps inside its segments
are changed. -/
def mutateWordsTranscript (off : ℚ) (t : Transcript) : Transcript :=
  { t with segments := t.segments.map (fun ss => ss.map (mutateWordsSeg off)) }

/-- Post-state of the caller's transcript list as the merge loop walks it:
chunk `i` is processed with the running offset, then the offset advances by
`segment_lengths[i]`.  If the duration list runs out at chunk `i`, Python
mutates chunk `i`'s words first and only then raises `IndexError` on
`segment_lengths[i]`, leaving the remaining chunks untouched. -/
def mutateInputs : List Transcript → List ℚ → ℚ → List Transcript
  | [], _, _ => []
  | t :: ts, [], off => mutateWordsTranscript off t :: ts
  | t :: ts, l :: ls, off => mutateWordsTranscript off t :: mutateInputs ts ls (off + l)

/-- Post-state of the caller's `transcript_segments` list after
`merge_transcript_segments(transcript_segments, segment_lengths)` returns
(`app.py` lines 90–134): the zero- and one-transcript early returns never
reach the mutating loop, every other call runs it over all chunks. -/
def inputsAfterMerge (ts : List Transcript) (ds : List ℚ) : List Transcript :=
  if ts.length ≤ 1 then ts else mutateInputs ts ds 0

/-! ### Derived quantities used to state the merge properties -/

/-- Total number of segments contributed by a list of chunk transcripts. -/
def totalSegs (ts : List Transcript) : ℕ :=
  (ts.map (fun t => (segsOf t).length)).sum

/-- Number of segments contributed by the chunks preceding chunk `i`. -/
def segsBefore (ts : List Transcript) (i : ℕ) : ℕ :=
  ((ts.take i).map (fun t => (segsOf t).length)).sum

/-- Sum of the declared durations of the windows preceding window `i` —
the offset the merge applies to chunk `i`. -/
def offsetBefore (ds : List ℚ) (i : ℕ) : ℚ :=
  (ds.take i).sum

/-- The global segment list the merge loop builds, written as a direct
recursion (chunk `i`'s segments, renumbered from the running counter and
shifted by the running offset, followed by the rest). -/
def mergeSegs : List Transcript → List ℚ → ℚ → ℕ → List Segment
  | [], _, _, _ => []
  | _ :: _, [], _, _ => []
  | t :: ts, l :: ls, off, sid =>
    renumber off sid (segsOf t) ++ mergeSegs ts ls (off + l) (sid + (segsOf t).length)

/-! ### Lemmas about the merge loop -/

theorem renumber_length (off : ℚ) (ss : List Segment) :
    ∀ sid, (renumber off sid ss).length = ss.length := by
  induction ss with
  | nil => intro sid; rfl
  | cons s ss ih => intro sid; simp [renumber, ih]

theorem renumber_get? (off : ℚ) (ss : List Segment) :
    ∀ sid j, (renumber off sid ss).get? j = (ss.get? j).map (shiftSegment off (sid + j)) := by
  induction ss with
  | nil => intro sid j; simp [renumber]
  | cons s ss ih =>
    intro sid j
    cases j with
    | zero => simp [renumber]
    | succ j =>
      simp only [renumber, List.get?_cons_succ, ih (sid + 1) j]
      have h : sid + 1 + j = sid + (j + 1) := by omega
      rw [h]

theorem renumber_ids (off : ℚ) (ss : List Segment) :
    ∀ sid, (renumber off sid ss).map (fun s => s.id) = List.range' sid ss.length := by
  induction ss with
  | nil => intro sid; rfl
  | cons s ss ih =>
    intro sid
    simp [renumber, shiftSegment, ih (sid + 1), List.range'_succ]

theorem range'_glue : ∀ (m s n : ℕ), List.range' s m ++ List.range' (s + m) n = List.range' s (m + n) := by
  intro m
  induction m with
  | zero => intro s n; simp
  | succ m ih =>
    intro s n
    rw [List.range'_succ, List.cons_append]
    have h1 : s + (m + 1) = s + 1 + m := by omega
    rw [h1, ih (s + 1) n]
    have h2 : m + 1 + n = m + n + 1 := by omega
    rw [h2, List.range'_succ]

theorem segsBefore_zero (t : Transcript) (ts : List Transcript) :
    segsBefore (t :: ts) 0 = 0 := rfl

theorem segsBefore_succ (t : Transcript) (ts : List Transcript) (i : ℕ) :
    segsBefore (t :: ts) (i + 1) = (segsOf t).length + segsBefore ts i := by
  simp [segsBefore]

theorem offsetBefore_zero (l : ℚ) (ls : List ℚ) : offsetBefore (l :: ls) 0 = 0 := rfl

theorem offsetBefore_succ (l : ℚ) (ls : List ℚ) (i : ℕ) :
    offsetBefore (l :: ls) (i + 1) = l + offsetBefore ls i := by
  simp [offsetBefore]

theorem mergeLoop_spec :
    ∀ (ts : List Transcript) (ls : List ℚ) (off : ℚ) (sid : ℕ) (text : String)
      (acc : List Segment), ts.length ≤ ls.length →
      ∃ T, mergeLoop ts ls off sid text acc = some (T, acc ++ mergeSegs ts ls off sid) := by
  intro ts
  induction ts with
  | nil =>
    intro ls off sid text acc _
    exact ⟨text, by simp [mergeLoop, mergeSegs]⟩
  | cons t ts ih =>
    intro ls off sid text acc h
    cases ls with
    | nil => simp at h
    | cons l ls =>
      obtain ⟨T, hT⟩ := ih ls (off + l) (sid + (segsOf t).length)
        (text ++ t.text.getD "" ++ " ") (acc ++ renumber off sid (segsOf t))
        (by simpa using h)
      refine ⟨T, ?_⟩
      have hstep : mergeLoop (t :: ts) (l :: ls) off sid text acc =
          mergeLoop ts ls (off + l) (sid + (renumber off sid (segsOf t)).length)
            (text ++ t.text.getD "" ++ " ") (acc ++ renumber off sid (segsOf t)) := rfl
      rw [hstep, renumber_length, hT]
      simp [mergeSegs, List.append_assoc]

theorem mergeSegs_length :
    ∀ (ts : List Transcript) (ls : List ℚ) (off : ℚ) (sid : ℕ), ts.length ≤ ls.length →
      (mergeSegs ts ls off sid).length = totalSegs ts := by
  intro ts
  induction ts with
  | nil => intro ls off sid _; simp [mergeSegs, totalSegs]
  | cons t ts ih =>
    intro ls off sid h
    cases ls with
    | nil => simp at h
    | cons l ls =>
      simp [mergeSegs, totalSegs, renumber_length,
        ih ls (off + l) (sid + (segsOf t).length) (by simpa using h)]

theorem mergeSegs_get? :
    ∀ (ts : List Transcript) (ls : List ℚ) (off : ℚ) (sid : ℕ) (i : ℕ) (hi : i < ts.length),
      ts.length ≤ ls.length → ∀ j, j < (segsOf (ts.get ⟨i, hi⟩)).length →
      (mergeSegs ts ls off sid).get? (segsBefore ts i + j) =
        ((segsOf (ts.get ⟨i, hi⟩)).get? j).map
          (shiftSegment (off + offsetBefore ls i) (sid + (segsBefore ts i + j))) := by
  intro ts
  induction ts with
  | nil => intro ls off sid i hi; simp at hi
  | cons t ts ih =>
    intro ls off sid i hi hlen j hj
    cases ls with
    | nil => simp at hlen
    | cons l ls =>
      cases i with
      | zero =>
        have hjlen : j < (renumber off sid (segsOf t)).length := by
          rw [renumber_length]; simpa using hj
        rw [segsBefore_zero, Nat.zero_add, mergeSegs,
          List.get?_append hjlen, renumber_get?, offsetBefore_zero]
        simp
      | succ i =>
        have hi2 : i < ts.length := by simpa using hi
        have hlen2 : ts.length ≤ ls.length := by simpa using hlen
        have hj2 : j < (segsOf (ts.get ⟨i, hi2⟩)).length := by
          simpa using hj
        have hidx : segsBefore (t :: ts) (i + 1) + j =
            (renumber off sid (segsOf t)).length + (segsBefore ts i + j) := by
          rw [renumber_length, segsBefore_succ]; omega
        rw [mergeSegs, hidx, List.get?_append_right (Nat.le_add_right _ _),
          Nat.add_sub_cancel_left]
        have hrec := ih ls (off + l) (sid + (segsOf t).length) i hi2 hlen2 j hj2
        rw [hrec]
        have hoff : off + l + offsetBefore ls i = off + offsetBefore (l :: ls) (i + 1) := by
          rw [offsetBefore_succ]; ring
        have hsid : sid + (segsOf t).length + (segsBefore ts i + j) =
            sid + (segsBefore (t :: ts) (i + 1) + j) := by
          rw [segsBefore_succ]; omega
        rw [hoff, hsid]
        rw [renumber_length]
        have hfin : sid + ((segsOf t).length + (segsBefore ts i + j)) =
            sid + (segsBefore (t :: ts) (i + 1) + j) := by
          rw [segsBefore_succ]; omega
        rw [hfin]
        rfl

theorem mergeSegs_ids :
    ∀ (ts : List Transcript) (ls : List ℚ) (off : ℚ) (sid : ℕ), ts.length ≤ ls.length →
      (mergeSegs ts ls off sid).map (fun s => s.id) = List.range' sid (totalSegs ts) := by
  intro ts
  induction ts with
  | nil => intro ls off sid _; simp [mergeSegs, totalSegs]
  | cons t ts ih =>
    intro ls off sid h
    cases ls with
    | nil => simp at h
    | cons l ls =>
      rw [mergeSegs, List.map_append, renumber_ids,
        ih ls (off + l) (sid + (segsOf t).length) (by simpa using h),
        range'_glue]
      have h2 : totalSegs (t :: ts) = (segsOf t).length + totalSegs ts := by
        simp [totalSegs]
      rw [h2]

theorem optWords_shift_zero (ow : Option (List Word)) :
    ow.map (fun ws => ws.map (shiftWord 0)) = ow := by
  cases ow with
  | none => rfl
  | some ws =>
    have h : shiftWord 0 = id := funext fun w => by simp [shiftWord]
    simp [h]

theorem mutateInputs_get? :
    ∀ (ts : List Transcript) (ls : List ℚ) (off : ℚ) (i : ℕ) (hi : i < ts.length),
      ts.length ≤ ls.length →
      (mutateInputs ts ls off).get? i =
        some (mutateWordsTranscript (off + offsetBefore ls i) (ts.get ⟨i, hi⟩)) := by
  intro ts
  induction ts with
  | nil => intro ls off i hi; simp at hi
  | cons t ts ih =>
    intro ls off i hi hlen
    cases ls with
    | nil => simp at hlen
    | cons l ls =>
      cases i with
      | zero => simp [mutateInputs, offsetBefore_zero]
      | succ i =>
        have hi2 : i < ts.length := by simpa using hi
        have hlen2 : ts.length ≤ ls.length := by simpa using hlen
        have hstep : (mutateInputs (t :: ts) (l :: ls) off).get? (i + 1) =
            (mutateInputs ts ls (off + l)).get? i := rfl
        rw [hstep, ih ls (off + l) i hi2 hlen2, offsetBefore_succ]
        have hoff : off + l + offsetBefore ls i = off + (l + offsetBefore ls i) := by ring
        rw [hoff]
        rfl

theorem clips_written_spec (ok : ℕ → Bool) :
    ∀ (cs : List ViralClip) (s k : ℕ), k < cs.length → ok (s + k) = false →
      (clips_written ok cs s).length ≤ k ∧
        ((∀ j, s ≤ j → j < s + k → ok j = true) → clips_written ok cs s = List.range' s k) := by
  intro cs
  induction cs with
  | nil => intro s k hk; simp at hk
  | cons c cs ih =>
    intro s k hk hfail
    by_cases hok : ok s = true
    · cases k with
      | zero =>
        rw [Nat.add_zero] at hfail
        rw [hfail] at hok
        simp at hok
      | succ k =>
        have hk2 : k < cs.length := by simpa using hk
        have hfail2 : ok (s + 1 + k) = false := by
          have : s + 1 + k = s + (k + 1) := by omega
          rw [this]; exact hfail
        obtain ⟨hlen, heq⟩ := ih (s + 1) k hk2 hfail2
        constructor
        · have hc : clips_written ok (c :: cs) s = s :: clips_written ok cs (s + 1) := by
            simp [clips_written, hok]
          rw [hc]
          simpa using Nat.succ_le_succ hlen
        · intro hall
          have hc : clips_written ok (c :: cs) s = s :: clips_written ok cs (s + 1) := by
            simp [clips_written, hok]
          rw [hc, heq (fun j h1 h2 => hall j (by omega) (by omega)), List.range'_succ]
    · have hc : clips_written ok (c :: cs) s = [] := by
        simp [clips_written, hok]
      constructor
      · rw [hc]; simp
      · intro hall
        cases k with
        | zero => rw [hc]; rfl
        | succ k =>
          have : ok s = true := hall s (le_refl s) (by omega)
          exact absurd this hok

/-! ### Concrete transcripts used by the claim theorems -/

/-- The surviving chunk of claim C1's failing scenario: the transcript of
window 1 (nominal duration 300 s), with one segment at window-local 5–15 s. -/
def survivorChunk : Transcript :=
  { task := some "transcribe", language := some "english", duration := some 300,
    text := some "the surviving window",
    segments := some [{ id := 0, start := 5, stop := 15, text := "the surviving window", words := none }] }

/-- Chunk 0 of the spec's two-window merge scenario (window duration 900 s). -/
def chunkA : Transcript :=
  { task := some "transcribe", language := some "english", duration := some 900,
    text := some "first window",
    segments := some [{ id := 0, start := 10, stop := 20, text := "first window", words := none }] }

/-- Chunk 1 of the spec's two-window merge scenario (window duration 300 s). -/
def chunkB : Transcript :=
  { task := some "transcribe", language := some "english", duration := some 300,
    text := some "second window",
    segments := some [{ id := 0, start := 5, stop := 15, text := "second window", words := none }] }

/-- A chunk transcript whose single segment carries the chunk-local id 5. -/
def chunkLocalIds : Transcript :=
  { task := some "transcribe", language := some "english", duration := some 40,
    text := some "only chunk",
    segments := some [{ id := 5, start := 1, stop := 2, text := "only chunk", words := none }] }

/-- A second chunk with a non-zero local id, partner of `chunkLocalIds`. -/
def chunkLocalIds2 : Transcript :=
  { task := some "transcribe", language := some "english", duration := some 40,
    text := some "second chunk",
    segments := some [{ id := 7, start := 3, stop := 4, text := "second chunk", words := none }] }

/-- A chunk whose segment carries word stamps, for the mutation claim. -/
def wordyA : Transcript :=
  { task := some "transcribe", language := some "english", duration := some 5,
    text := some "hi there",
    segments := some [{ id := 0, start := 0, stop := 2, text := "hi there",
                        words := some [{ word := "hi", start := 0, stop := 1 },
                                       { word := "there", start := 1, stop := 2 }] }] }

/-- A second chunk with word stamps, partner of `wordyA`. -/
def wordyB : Transcript :=
  { task := some "transcribe", language := some "english", duration := some 7,
    text := some "again",
    segments := some [{ id := 0, start := 1, stop := 2, text := "again",
                        words := some [{ word := "again", start := 1, stop := 2 }] }] }

/-! ### Claim theorems -/

/-- Claim C1.  The claim says that when some windows fail, every later
successful window is still offset by the sum of the nominal durations of
ALL preceding windows, so surviving timestamps stay correct.  The code
violates this: `transcribe_video` appends only successful transcriptions to
`transcript_segments` but keeps one duration per window in
`segment_durations`, and the merge pairs the two lists positionally.  With
two windows of nominal durations [900, 300] where window 0 fails and
window 1 succeeds, the surviving chunk is returned entirely unchanged — its
segment still spans 5–15 s instead of the required 905–915 s — even though
the pipeline does proceed (it returns a transcript rather than `None`). -/
theorem c1_failed_window_offset_bug :
    transcribe_merge [none, some survivorChunk] [900, 300] = some survivorChunk ∧
    (segsOf survivorChunk).map (fun s => (s.start, s.stop)) = [(5, 15)] ∧
    ¬ (segsOf survivorChunk).map (fun s => (s.start, s.stop)) = [(905, 915)] := by
  refine ⟨rfl, rfl, fun hcontra => ?_⟩
  norm_num [survivorChunk, segsOf] at hcontra

/-- Claim C2: when all chunks are present (one declared duration per chunk),
the merge shifts the `start` and `stop` of every segment of chunk `i`, and
of every word stamp inside it, by exactly the sum of the declared durations
of the preceding windows, placing it at global position
`segsBefore ts i + j`. -/
theorem c2_merge_offset (ts : List Transcript) (ds : List ℚ)
    (hlen : ds.length = ts.length) (i j : ℕ) (chunk : Transcript) (orig : Segment)
    (hchunk : ts.get? i = some chunk)
    (horig : (segsOf chunk).get? j = some orig) :
    ∃ m sNew,
      merge_transcript_segments ts ds = some m ∧
      (segsOf m).get? (segsBefore ts i + j) = some sNew ∧
      sNew.start = orig.start + offsetBefore ds i ∧
      sNew.stop = orig.stop + offsetBefore ds i ∧
      sNew.text = orig.text ∧
      sNew.words = orig.words.map (fun ws => ws.map (shiftWord (offsetBefore ds i))) := by
  have hi : i < ts.length := List.get?_eq_some.mp hchunk |>.1
  have hchunkEq : ts.get ⟨i, hi⟩ = chunk := List.get?_eq_some.mp hchunk |>.2
  have hj : j < (segsOf chunk).length := List.get?_eq_some.mp horig |>.1
  rcases ts with _ | ⟨t, rest⟩
  · simp at hi
  rcases rest with _ | ⟨t1, rest2⟩
  · -- single chunk: returned unchanged, offset is the empty sum 0
    have hi0 : i = 0 := by
      simp at hi
      omega
    subst hi0
    have ht : t = chunk := by simpa using hchunkEq
    subst ht
    refine ⟨t, orig, rfl, ?_, ?_, ?_, rfl, (optWords_shift_zero orig.words).symm⟩
    · have : segsBefore [t] 0 + j = j := by simp [segsBefore]
      rw [this]
      exact horig
    · simp [offsetBefore]
    · simp [offsetBefore]
  · -- at least two chunks: the accumulating loop runs
    obtain ⟨T, hT⟩ := mergeLoop_spec (t :: t1 :: rest2) ds 0 0 "" [] (le_of_eq hlen.symm)
    have hm : merge_transcript_segments (t :: t1 :: rest2) ds =
        some { task := some (t.task.getD "transcribe"),
               language := some (t.language.getD "english"),
               duration := some ds.sum,
               text := some T,
               segments := some (mergeSegs (t :: t1 :: rest2) ds 0 0) } := by
      have hdef : merge_transcript_segments (t :: t1 :: rest2) ds =
          (mergeLoop (t :: t1 :: rest2) ds 0 0 "" []).map (fun p =>
            { task := some (t.task.getD "transcribe"),
              language := some (t.language.getD "english"),
              duration := some ds.sum,
              text := some p.1,
              segments := some p.2 }) := rfl
      rw [hdef, hT]
      simp
    refine ⟨_, shiftSegment (offsetBefore ds i) (segsBefore (t :: t1 :: rest2) i + j) orig,
      hm, ?_, ?_, ?_, ?_, ?_⟩
    · have hfetch := mergeSegs_get? (t :: t1 :: rest2) ds 0 0 i hi (le_of_eq hlen.symm) j
        (by rw [hchunkEq]; exact hj)
      rw [hchunkEq, horig] at hfetch
      simpa [segsOf] using hfetch
    · simp [shiftSegment]
    · simp [shiftSegment]
    · simp [shiftSegment]
    · simp [shiftSegment]

/-- Claim C7.  The claim asserts global ids `0..N-1` for every merged
transcript "regardless of the chunk-local ids".  That fails for a
single-chunk merge, which returns the chunk unchanged: merging only
`chunkLocalIds` (whose segment has local id 5) keeps id 5, which is not the
contiguous range `[0]`. -/
theorem c7_counterexample :
    merge_transcript_segments [chunkLocalIds] [40] = some chunkLocalIds ∧
    (segsOf chunkLocalIds).map (fun s => s.id) = [5] ∧
    ¬ (segsOf chunkLocalIds).map (fun s => s.id) =
        List.range (segsOf chunkLocalIds).length := by
  refine ⟨rfl, rfl, fun hcontra => ?_⟩
  have h1 : (segsOf chunkLocalIds).map (fun s => s.id) = [5] := rfl
  have h2 : List.range (segsOf chunkLocalIds).length = [0] := rfl
  rw [h1, h2] at hcontra
  simp at hcontra

/-- Claim C7 (amended): whenever two or more chunk transcripts are merged
(one declared duration each), the merged segment ids are exactly the
contiguous range `0..N-1` in merge order, regardless of the chunk-local
ids; a single chunk is returned unchanged with its original ids. -/
theorem c7_amended_ids (ts : List Transcript) (ds : List ℚ)
    (h2 : 2 ≤ ts.length) (hlen : ds.length = ts.length) :
    ∃ m, merge_transcript_segments ts ds = some m ∧
      (segsOf m).map (fun s => s.id) = List.range (segsOf m).length := by
  rcases ts with _ | ⟨t, rest⟩
  · simp at h2
  rcases rest with _ | ⟨t1, rest2⟩
  · simp at h2
  obtain ⟨T, hT⟩ := mergeLoop_spec (t :: t1 :: rest2) ds 0 0 "" [] (le_of_eq hlen.symm)
  have hm : merge_transcript_segments (t :: t1 :: rest2) ds =
      some { task := some (t.task.getD "transcribe"),
             language := some (t.language.getD "english"),
             duration := some ds.sum,
             text := some T,
             segments := some (mergeSegs (t :: t1 :: rest2) ds 0 0) } := by
    have hdef : merge_transcript_segments (t :: t1 :: rest2) ds =
        (mergeLoop (t :: t1 :: rest2) ds 0 0 "" []).map (fun p =>
          { task := some (t.task.getD "transcribe"),
            language := some (t.language.getD "english"),
            duration := some ds.sum,
            text := some p.1,
            segments := some p.2 }) := rfl
    rw [hdef, hT]
    simp
  refine ⟨_, hm, ?_⟩
  have hids := mergeSegs_ids (t :: t1 :: rest2) ds 0 0 (le_of_eq hlen.symm)
  have hcount := mergeSegs_length (t :: t1 :: rest2) ds 0 0 (le_of_eq hlen.symm)
  simp only [segsOf, Option.getD_some]
  rw [hids, hcount, List.range_eq_range']

/-- Claim C8: merge is the identity at the small ends of its domain — zero
chunks give the empty dict (whose effective segment list and text are
empty), and one chunk is returned entirely unchanged whatever the declared
durations are. -/
theorem c8_merge_small_identity (ds : List ℚ) (c : Transcript) :
    merge_transcript_segments [] ds = some emptyTranscript ∧
    segsOf emptyTranscript = [] ∧
    emptyTranscript.text.getD "" = "" ∧
    merge_transcript_segments [c] ds = some c :=
  ⟨rfl, rfl, rfl, rfl⟩

/-- Claim C10: with two or more chunks, `merge_transcript_segments` mutates
the caller's transcripts — each appended segment is a shallow copy sharing
its `words` list with the input segment, so after the call the caller's
chunk `i` is its old value with every word stamp shifted by the running
offset `offsetBefore ds i`, all other fields (including the segments' own
`id`/`start`/`stop`/`text`) untouched. -/
theorem c10_words_mutated_in_place (ts : List Transcript) (ds : List ℚ)
    (h2 : 2 ≤ ts.length) (hlen : ds.length = ts.length)
    (i : ℕ) (chunk : Transcript) (hchunk : ts.get? i = some chunk) :
    (inputsAfterMerge ts ds).get? i =
      some { chunk with
             segments := chunk.segments.map (fun ss => ss.map (fun s =>
               { s with words := s.words.map (fun ws =>
                   ws.map (shiftWord (offsetBefore ds i))) })) } := by
  have hi : i < ts.length := List.get?_eq_some.mp hchunk |>.1
  have hchunkEq : ts.get ⟨i, hi⟩ = chunk := List.get?_eq_some.mp hchunk |>.2
  have hif : inputsAfterMerge ts ds = mutateInputs ts ds 0 := by
    rw [inputsAfterMerge, if_neg (by omega)]
  rw [hif, mutateInputs_get? ts ds 0 i hi (le_of_eq hlen.symm), zero_add, hchunkEq]
  rfl

/-- Claim C2 witness: the spec's concrete scenario — windows of 900 s and
300 s, chunk 0 with a segment at 10–20 s and chunk 1 with a segment at
5–15 s — instantiates the offset theorem: chunk 1's segment lands at global
position 1 shifted by exactly 900 s (to 905–915 s). -/
theorem c2_witness :
    ((([900, 300] : List ℚ).length = ([chunkA, chunkB] : List Transcript).length) ∧
     (([chunkA, chunkB] : List Transcript).get? 1 = some chunkB) ∧
     ((segsOf chunkB).get? 0 =
       some { id := 0, start := 5, stop := 15, text := "second window", words := none }) ∧
     offsetBefore ([900, 300] : List ℚ) 1 = 900 ∧
     segsBefore ([chunkA, chunkB] : List Transcript) 1 + 0 = 1) ∧
    (∃ m sNew,
      merge_transcript_segments [chunkA, chunkB] [900, 300] = some m ∧
      (segsOf m).get? (segsBefore ([chunkA, chunkB] : List Transcript) 1 + 0) = some sNew ∧
      sNew.start = (5 : ℚ) + offsetBefore ([900, 300] : List ℚ) 1 ∧
      sNew.stop = (15 : ℚ) + offsetBefore ([900, 300] : List ℚ) 1 ∧
      sNew.text = "second window" ∧
      sNew.words = none) :=
  ⟨⟨rfl, rfl, rfl, by norm_num [offsetBefore], rfl⟩,
   c2_merge_offset [chunkA, chunkB] [900, 300] rfl 1 0 chunkB
     { id := 0, start := 5, stop := 15, text := "second window", words := none } rfl rfl⟩

/-- Claim C7 witness: merging two chunks whose local segment ids are 5 and
7 renumbers them to the contiguous range [0, 1]. -/
theorem c7_witness :
    ((2 ≤ ([chunkLocalIds, chunkLocalIds2] : List Transcript).length) ∧
     (([40, 40] : List ℚ).length = ([chunkLocalIds, chunkLocalIds2] : List Transcript).length)) ∧
    (∃ m, merge_transcript_segments [chunkLocalIds, chunkLocalIds2] [40, 40] = some m ∧
      (segsOf m).map (fun s => s.id) = List.range (segsOf m).length) :=
  ⟨⟨by simp, rfl⟩, c7_amended_ids [chunkLocalIds, chunkLocalIds2] [40, 40] (by simp) rfl⟩

/-- Claim C10 witness: merging `wordyA` (window duration 5 s) and `wordyB`
leaves the caller's `wordyB` with its word stamps shifted by 5 s — the
post-state of the input list is visibly different from the input. -/
theorem c10_witness :
    ((2 ≤ ([wordyA, wordyB] : List Transcript).length) ∧
     (([5, 7] : List ℚ).length = ([wordyA, wordyB] : List Transcript).length) ∧
     (([wordyA, wordyB] : List Transcript).get? 1 = some wordyB)) ∧
    ((inputsAfterMerge [wordyA, wordyB] [5, 7]).get? 1 =
      some { wordyB with
             segments := wordyB.segments.map (fun ss => ss.map (fun s =>
               { s with words := s.words.map (fun ws =>
                   ws.map (shiftWord (offsetBefore ([5, 7] : List ℚ) 1))) })) }) ∧
    (inputsAfterMerge [wordyA, wordyB] [5, 7]).get? 1 ≠ some wordyB := by
  refine ⟨⟨by simp, rfl, rfl⟩,
    c10_words_mutated_in_place [wordyA, wordyB] [5, 7] (by simp) rfl 1 wordyB rfl, ?_⟩
  intro hcontra
  norm_num [inputsAfterMerge, mutateInputs, mutateWordsTranscript, mutateWordsSeg,
    shiftWord, wordyA, wordyB] at hcontra

/-- The sub-30-second candidate of the spec's scenario: the reasoning
service returns a clip spanning 0–25 s. -/
def shortClipEx : ViralClip :=
  { timecodes := (0, 25), description := "short segment",
    entertainment_score := 9, educational_score := 10, clarity_score := 9,
    shareability_score := 10, length_score := 8, analysis := "", text_hook := "hook" }

/-- Claim C3.  The claim asserts a post-processing filter discarding every
candidate shorter than 30 s.  No such filter exists: `analyze_transcript`
returns the parsed `clips` list verbatim, so a 25-second candidate returned
by the service appears in the result (the repository's own test asserts a
2-second candidate is returned). -/
theorem c3_counterexample :
    analyze_transcript_result (some (some [shortClipEx])) = [shortClipEx] ∧
    shortClipEx.timecodes.2 - shortClipEx.timecodes.1 < 30 :=
  ⟨rfl, by norm_num [shortClipEx]⟩

/-- Claim C3 (amended): the implementation applies no duration filter — the
selection result is exactly the service's `clips` list, so every candidate
the service returns, including one with `end - start < 30`, is in the
result. -/
theorem c3_amended_no_filter (resp : List ViralClip) (c : ViralClip) (hc : c ∈ resp)
    (hshort : c.timecodes.2 - c.timecodes.1 < 30) :
    c ∈ analyze_transcript_result (some (some resp)) := hc

/-- Claim C3 witness: the 25-second candidate of `c3_counterexample`
survives into the selection result. -/
theorem c3_witness :
    (shortClipEx ∈ [shortClipEx] ∧
     shortClipEx.timecodes.2 - shortClipEx.timecodes.1 < 30) ∧
    shortClipEx ∈ analyze_transcript_result (some (some [shortClipEx])) :=
  ⟨⟨by simp, by norm_num [shortClipEx]⟩,
   c3_amended_no_filter [shortClipEx] shortClipEx (by simp) (by norm_num [shortClipEx])⟩

/-- Claim C4.  The claim asserts that when the scaled width
`w' = w * 1920 / h` is below the 1080 crop target, the operation fails with
a `GeometryError` after the caller validates `w' >= 1080`.  The code has no
such validation and no such error: at a 100×1920 source the geometry is
computed unguarded — the scaled intermediate is 100×1920 and the crop band
(-490, 590) is requested with a negative left edge instead of any failure. -/
theorem c4_counterexample :
    vertical_clip_geometry 100 1920 = ((100, 1920), (-490, 590)) ∧
    ((vertical_clip_geometry 100 1920).2).1 < 0 := by
  constructor
  · norm_num [vertical_clip_geometry, scaled_size, crop_band, Prod.ext_iff]
  · norm_num [vertical_clip_geometry, scaled_size, crop_band]

/-- Claim C4 (amended): the reprojection scales uniformly to height 1920
(intermediate width `⌊w * 1920 / h⌋`) and center-crops to width 1080;
whenever the scaled width is at least 1080 the requested band lies inside
the frame and spans exactly 1080, so the output is exactly 1080×1920; when
it is smaller the code performs no validation and raises no GeometryError —
the same crop is requested with out-of-frame edges. -/
theorem c4_amended_geometry (w h : ℕ) (hw : 1080 ≤ (scaled_size w h).1) :
    (scaled_size w h).2 = 1920 ∧
    0 ≤ ((vertical_clip_geometry w h).2).1 ∧
    ((vertical_clip_geometry w h).2).2 ≤ ((scaled_size w h).1 : ℚ) ∧
    ((vertical_clip_geometry w h).2).2 - ((vertical_clip_geometry w h).2).1 = 1080 := by
  have hq : (1080 : ℚ) ≤ ((scaled_size w h).1 : ℚ) := by exact_mod_cast hw
  refine ⟨rfl, ?_, ?_, ?_⟩
  · simp only [vertical_clip_geometry, crop_band]
    linarith
  · simp only [vertical_clip_geometry, crop_band]
    linarith
  · simp only [vertical_clip_geometry, crop_band]
    ring

/-- Claim C4 witness: a 1920×1080 source scales to width 3413 ≥ 1080, and
the requested crop band lies inside the frame with width exactly 1080. -/
theorem c4_witness :
    1080 ≤ (scaled_size 1920 1080).1 ∧
    ((scaled_size 1920 1080).2 = 1920 ∧
     0 ≤ ((vertical_clip_geometry 1920 1080).2).1 ∧
     ((vertical_clip_geometry 1920 1080).2).2 ≤ ((scaled_size 1920 1080).1 : ℚ) ∧
     ((vertical_clip_geometry 1920 1080).2).2 - ((vertical_clip_geometry 1920 1080).2).1 = 1080) :=
  ⟨by norm_num [scaled_size], c4_amended_geometry 1920 1080 (by norm_num [scaled_size])⟩

/-- A well-formed 60-second candidate used by the clip-extraction claims. -/
def okClipEx : ViralClip :=
  { timecodes := (0, 60), description := "a fine candidate",
    entertainment_score := 8, educational_score := 9, clarity_score := 9,
    shareability_score := 8, length_score := 10, analysis := "", text_hook := "hook" }

/-- Claim C5.  The claim says a failure while extracting one candidate's
clip is fatal only for that candidate, the others still proceeding.  The
code's `for` loop sits inside a single `try`, so the exception aborts the
whole loop: when candidate 1 fails and candidate 2 would succeed, no clip
at all is written — candidate 2 does not proceed. -/
theorem c5_counterexample :
    (fun i => !(i == 1)) 2 = true ∧
    create_vertical_clips_result (fun i => !(i == 1)) [okClipEx, okClipEx] = [] :=
  ⟨rfl, rfl⟩

/-- Claim C5 (amended): a failure while extracting candidate `k + 1`'s clip
is fatal for it and for every later candidate — at most the `k` earlier
clips are written, and exactly the clips `1..k` when all earlier candidates
succeed. -/
theorem c5_amended_abort (ok : ℕ → Bool) (clips : List ViralClip) (k : ℕ)
    (hk : k < clips.length) (hfail : ok (k + 1) = false) :
    (create_vertical_clips_result ok clips).length ≤ k ∧
      ((∀ j, 1 ≤ j → j ≤ k → ok j = true) →
        create_vertical_clips_result ok clips = List.range' 1 k) := by
  have hfail2 : ok (1 + k) = false := by rwa [Nat.add_comm]
  obtain ⟨h1, h2⟩ := clips_written_spec ok clips 1 k hk hfail2
  exact ⟨h1, fun hall => h2 (fun j hj1 hj2 => hall j hj1 (by omega))⟩

/-- Claim C5 witness: with three candidates where only the first succeeds,
exactly clip 1 is written and nothing after the failure. -/
theorem c5_witness :
    ((1 < ([okClipEx, okClipEx, okClipEx] : List ViralClip).length) ∧
     ((fun i => i == 1) (1 + 1) = false)) ∧
    ((create_vertical_clips_result (fun i => i == 1) [okClipEx, okClipEx, okClipEx]).length ≤ 1 ∧
      ((∀ j, 1 ≤ j → j ≤ 1 → (fun i => i == 1) j = true) →
        create_vertical_clips_result (fun i => i == 1) [okClipEx, okClipEx, okClipEx] =
          List.range' 1 1)) :=
  ⟨⟨by simp, rfl⟩,
   c5_amended_abort (fun i => i == 1) [okClipEx, okClipEx, okClipEx] 1 (by simp) rfl⟩

/-- Claim C6.  The claim's own interval table assigns `(110, 120] → 4`, yet
its boundary example demands `120.0 s → 2`; the two are inconsistent, and
the policy (read sequentially from the prompt text, first match winning)
gives `length_score 120 = 4`, not 2. -/
theorem c6_counterexample :
    length_score 120 = 4 ∧ length_score 120 ≠ 2 := by
  constructor <;> norm_num [length_score]

/-- Claim C6 (amended): the recomputable length score matches the piecewise
table exactly at every boundary — `[30, 90] → 10`, `[20, 30) ∪ (90, 100] → 8`,
`[10, 20) ∪ (100, 110] → 6`, `[0, 10) ∪ (110, 120] → 4`, `> 120 → 2` — so
30.0 s → 10, 29.999 s → 8, 90.0 s → 10, 90.001 s → 8, and 120.0 s → 4. -/
theorem c6_amended_table :
    (∀ d : ℚ,
      ((30 ≤ d ∧ d ≤ 90) → length_score d = 10) ∧
      (((20 ≤ d ∧ d < 30) ∨ (90 < d ∧ d ≤ 100)) → length_score d = 8) ∧
      (((10 ≤ d ∧ d < 20) ∨ (100 < d ∧ d ≤ 110)) → length_score d = 6) ∧
      (((0 ≤ d ∧ d < 10) ∨ (110 < d ∧ d ≤ 120)) → length_score d = 4) ∧
      (120 < d → length_score d = 2)) ∧
    length_score 30 = 10 ∧ length_score (29.999 : ℚ) = 8 ∧
    length_score 90 = 10 ∧ length_score (90.001 : ℚ) = 8 ∧
    length_score 120 = 4 := by
  refine ⟨fun d => ⟨?_, ?_, ?_, ?_, ?_⟩, ?_, ?_, ?_, ?_, ?_⟩
  · intro hd
    rw [length_score, if_pos hd]
  · rintro (⟨h1, h2⟩ | ⟨h1, h2⟩) <;>
      rw [length_score, if_neg (by rintro ⟨a, b⟩; linarith), if_pos (by
        first
          | exact Or.inl ⟨h1, h2.le⟩
          | exact Or.inr ⟨h1.le, h2⟩)]
  · rintro (⟨h1, h2⟩ | ⟨h1, h2⟩) <;>
      rw [length_score, if_neg (by rintro ⟨a, b⟩; linarith),
        if_neg (by rintro (⟨a, b⟩ | ⟨a, b⟩) <;> linarith), if_pos (by
        first
          | exact Or.inl ⟨h1, h2.le⟩
          | exact Or.inr ⟨h1.le, h2⟩)]
  · rintro (⟨h1, h2⟩ | ⟨h1, h2⟩) <;>
      rw [length_score, if_neg (by rintro ⟨a, b⟩; linarith),
        if_neg (by rintro (⟨a, b⟩ | ⟨a, b⟩) <;> linarith),
        if_neg (by rintro (⟨a, b⟩ | ⟨a, b⟩) <;> linarith), if_pos (by
        first
          | exact Or.inl ⟨h1, h2.le⟩
          | exact Or.inr ⟨h1.le, h2⟩)]
  · intro hd
    rw [length_score, if_neg (by rintro ⟨a, b⟩; linarith),
      if_neg (by rintro (⟨a, b⟩ | ⟨a, b⟩) <;> linarith),
      if_neg (by rintro (⟨a, b⟩ | ⟨a, b⟩) <;> linarith),
      if_neg (by rintro (⟨a, b⟩ | ⟨a, b⟩) <;> linarith)]
  · norm_num [length_score]
  · norm_num [length_score]
  · norm_num [length_score]
  · norm_num [length_score]
  · norm_num [length_score]

/-- Claim C6 witness: evaluating the table at the in-band boundary. -/
theorem c6_witness : length_score 30 = 10 := c6_amended_table.2.1

/-- Claim C9.  The claim says `split` fails with `InvalidInputError` for
every non-positive `totalDuration` or `maxChunkLength`.  The code performs
no validation: a duration of -3 s with a 900 s chunk length takes the
"short video" path and returns the single window (0, -3), and a 10 s
duration with a -5 s chunk length yields a non-positive segment count and
returns the empty window list — in both cases a list, never an error. -/
theorem c9_counterexample :
    split_audio_windows (-3) 900 = [(0, -3)] ∧
    split_audio_windows 10 (-5) = [] := by
  constructor
  · norm_num [split_audio_windows]
  · simp only [split_audio_windows]
    rw [if_neg (by norm_num), if_neg (by norm_num),
      show ((10 : ℚ) / (-5)) = ((-2 : ℤ) : ℚ) by norm_num, Int.ceil_intCast]
    rfl

/-- Claim C9 (amended): `split_audio` never raises an `InvalidInputError`
(no such error exists).  Whenever `totalDuration <= maxChunkLength` —
including every non-positive duration with a positive chunk length — it
returns the single window `(0, totalDuration)`; whenever
`maxChunkLength <= 0 < totalDuration` it returns the empty list. -/
theorem c9_amended_no_validation (d sl : ℚ) :
    (d ≤ sl → split_audio_windows d sl = [(0, d)]) ∧
    (sl ≤ 0 → 0 < d → split_audio_windows d sl = []) := by
  constructor
  · intro hle
    rw [split_audio_windows, if_pos hle]
  · intro hsl hd
    have hne : ¬ d ≤ sl := by linarith
    rw [split_audio_windows, if_neg hne]
    by_cases h0 : sl = 0
    · rw [if_pos h0]
    · rw [if_neg h0]
      have hslneg : sl < 0 := lt_of_le_of_ne hsl h0
      have hdiv : d / sl ≤ 0 := div_nonpos_iff.mpr (Or.inl ⟨hd.le, hsl⟩)
      have hceil : (Int.ceil (d / sl)).toNat = 0 := by
        rw [Int.toNat_eq_zero]
        exact Int.ceil_le.mpr (by exact_mod_cast hdiv)
      rw [hceil]
      rfl

/-- Claim C9 witness: both non-positive-input behaviors at concrete inputs —
a window list is returned, not an error. -/
theorem c9_witness :
    (((-3 : ℚ) ≤ 900) ∧ split_audio_windows (-3) 900 = [(0, -3)]) ∧
    (((-5 : ℚ) ≤ 0) ∧ ((0 : ℚ) < 10) ∧ split_audio_windows 10 (-5) = []) :=
  ⟨⟨by norm_num, (c9_amended_no_validation (-3) 900).1 (by norm_num)⟩,
   ⟨by norm_num, by norm_num, (c9_amended_no_validation 10 (-5)).2 (by norm_num) (by norm_num)⟩⟩

end VideoClipper
